import Mathlib

/-!
# force: `fetch` and `import`

A shallow embedding of `runFetch` (fetch.go) and `runImport` (import.go).

* Go strings are lists of characters.  Every separator the two commands look
  for (`/`, `.`, `__`, the flag tokens) is ASCII, so splitting, prefix and
  suffix tests on characters agree with the byte-level operations of Go.
* Fatal exits (`ErrorAndExit`, `log.Fatal`) and run-time panics are values of
  `Failure`; a function that can stop the process returns `Except Failure _`.
* The remote Metadata API, the XML decoder and the zip reader are parameters.
* The file system is an explicit state, a finite map from paths to nodes.
-/

set_option autoImplicit false

namespace Force

/-! ## Basic types -/

/-- A Go `string`. -/
abbrev GoString := List Char

/-- A Go `[]byte`. -/
abbrev Bytes := List Nat

/-- The ways in which a command stops before its last statement. -/
inductive Failure where
  /-- `ErrorAndExit(msg)`: the message is printed and the process exits. -/
  | errorAndExit (msg : GoString)
  /-- `ErrorAndExit(err.Error())` for an error of the operating system, whose
  text is the system's. -/
  | errorAndExitSys
  /-- `log.Fatal(err)`. -/
  | logFatal
  /-- Run-time panic: index out of range. -/
  | indexOutOfRange
  /-- Run-time panic: method value of a nil interface. -/
  | nilDereference
  deriving DecidableEq, Repr

deriving instance DecidableEq for Except

/-- Modelled from the spec: the declaration of `ForceMetadataQueryElement` is
not part of the two source files.  The spec gives it two string fields, the
component type and the name, and `runFetch` builds it positionally as
`ForceMetadataQueryElement{artifactType, name}`. -/
structure ForceMetadataQueryElement where
  componentType : GoString
  name : GoString
  deriving DecidableEq, Repr

/-- Modelled from the spec: `ForceMetadataQuery`, an ordered sequence of query
elements (a Go slice, extended with `append`). -/
abbrev ForceMetadataQuery := List ForceMetadataQueryElement

/-- Modelled from the spec: `ForceMetadataFiles`, the Go map from relative path
to content.  It is kept as an association list with distinct keys; `range`
visits the entries in the order of the list (Go leaves the order open). -/
abbrev ForceMetadataFiles := List (GoString × Bytes)

/-- Assignment `m[k] = v` on a Go map kept as an association list: the value
of an existing key is replaced in place, a new key is added at the end. -/
def mapSet {κ β : Type} [DecidableEq κ] : List (κ × β) → κ → β → List (κ × β)
  | [], k, v => [(k, v)]
  | (k', v') :: m, k, v => if k' = k then (k, v) :: m else (k', v') :: mapSet m k v

/-- Lookup `m[k]` on a Go map kept as an association list. -/
def mapGet {κ β : Type} [DecidableEq κ] : List (κ × β) → κ → Option β
  | [], _ => none
  | (k', v') :: m, k => if k' = k then some v' else mapGet m k

/-! ## fetch.go, lines 42-82: the request -/

/-- What `runFetch` asks of the remote system: `RetrievePackage(name)` or
`Retrieve(query)`, together with the value of `expandResources` once the
arguments are read. -/
inductive FetchRequest where
  | package (name : GoString) (expandResources : Bool)
  | query (query : ForceMetadataQuery) (expandResources : Bool)
  deriving DecidableEq, Repr

/-- Lines 57-61: the loop over `args[1:]` of the package branch; the state is
`expandResources`. -/
def packageLoop : List GoString → Bool → Bool
  | [], expandResources => expandResources
  | a :: rest, expandResources =>
    if a = "--unpack".toList ∨ a = "-u".toList then packageLoop rest true
    else packageLoop rest expandResources

/-- Lines 66-73: the loop over `newargs`; the state is `query` and
`expandResources`. -/
def queryLoop (artifactType : GoString) :
    List GoString → ForceMetadataQuery × Bool → ForceMetadataQuery × Bool
  | [], st => st
  | a :: rest, (query, expandResources) =>
    if a = "--unpack".toList ∨ a = "-u".toList then
      queryLoop artifactType rest (query, true)
    else
      queryLoop artifactType rest (query ++ [⟨artifactType, a⟩], expandResources)

/-- Lines 42-82 of `runFetch` without the remote call itself: the request that
is sent.  `args[1]` of the package branch is an unchecked index. -/
def runFetch_request (args : List GoString) : Except Failure FetchRequest :=
  match args with
  | [] => .error (.errorAndExit "must specify object type and/or object name".toList)
  | artifactType :: newargs =>
    if artifactType = "package".toList then
      match newargs with
      | [] => .error .indexOutOfRange
      | name :: _ => .ok (.package name (packageLoop newargs false))
    else if 2 ≤ (artifactType :: newargs).length then
      let st := queryLoop artifactType newargs ([], false)
      .ok (.query st.1 st.2)
    else
      .ok (.query [⟨artifactType, "*".toList⟩] false)

/-! ## The specification's vocabulary for argument lists -/

/-- A token that is the unpack flag. -/
def isUnpackFlag (a : GoString) : Bool :=
  decide (a = "--unpack".toList ∨ a = "-u".toList)

/-- The given names: the tokens after the type that are not the unpack flag. -/
def givenNames (rest : List GoString) : List GoString :=
  rest.filter (fun a => !isUnpackFlag a)

/-! ## The Go library: `strings` -/

/-- Go `strings.HasPrefix(s, prefix)`. -/
def HasPrefix (s pre : GoString) : Bool := pre.isPrefixOf s

/-- Go `strings.HasSuffix(s, suffix)`. -/
def HasSuffix (s suf : GoString) : Bool := suf.reverse.isPrefixOf s.reverse

/-- Go `strings.Split(s, sep)` for a separator of one character, the only
kind the two commands use (`"/"` and `"."`).  The result has one more element
than `s` has separators; in particular it is never empty, and the slice Go
returns has its capacity equal to its length. -/
def Split (s : GoString) (sep : Char) : List GoString :=
  match s with
  | [] => [[]]
  | c :: cs =>
    if c = sep then [] :: Split cs sep
    else
      match Split cs sep with
      | [] => [[c]]
      | p :: ps => (c :: p) :: ps

/-- The scan of `strings.Replace(s, old, new, -1)` for a non-empty `old`:
`skip` counts the characters of a matched occurrence still to be dropped. -/
def replaceScan (old new : GoString) : Nat → GoString → GoString
  | _, [] => []
  | skip + 1, _ :: cs => replaceScan old new skip cs
  | 0, c :: cs =>
    if old.isPrefixOf (c :: cs) then new ++ replaceScan old new (old.length - 1) cs
    else c :: replaceScan old new 0 cs

/-- Go `strings.Replace(s, old, new, -1)`: every non-overlapping occurrence of
`old`, found from left to right, is replaced by `new`.  For an empty `old` Go
inserts `new` before every character and at the end. -/
def Replace (s old new : GoString) : GoString :=
  if old = new then s
  else if old = [] then new ++ s.flatMap (fun c => c :: new)
  else replaceScan old new 0 s

/-! ## The Go library: `path/filepath` on Unix -/

/-- Path elements joined with `/`. -/
def joinSegs : List GoString → GoString
  | [] => []
  | [s] => s
  | s :: t :: rest => s ++ '/' :: joinSegs (t :: rest)

/-- The element pass of `filepath.Clean`.  `out` is the output so far, last
element first.  Empty elements and `.` are dropped; `..` removes the element
before it when that is not itself `..`, is dropped at the start of a rooted
path, and is kept at the start of a relative one. -/
def cleanSegs (rooted : Bool) : List GoString → List GoString → List GoString
  | [], out => out.reverse
  | seg :: rest, out =>
    if seg = [] ∨ seg = ['.'] then cleanSegs rooted rest out
    else if seg = ['.', '.'] then
      match out with
      | [] => if rooted then cleanSegs rooted rest [] else cleanSegs rooted rest [seg]
      | top :: out' =>
        if top = ['.', '.'] then
          (if rooted then cleanSegs rooted rest out else cleanSegs rooted rest (seg :: out))
        else cleanSegs rooted rest out'
    else cleanSegs rooted rest (seg :: out)

/-- Go `filepath.Clean(path)`: the shortest path equivalent to `path` by
purely lexical processing; the empty path becomes `.`. -/
def Clean (path : GoString) : GoString :=
  let rooted := HasPrefix path ['/']
  let body := joinSegs (cleanSegs rooted (Split path '/') [])
  let out := if rooted then '/' :: body else body
  if out = [] then ['.'] else out

/-- Go `filepath.Join(a, b)`: empty elements are ignored, the others are
joined with `/` from the first non-empty one on, and the result is cleaned. -/
def Join (a b : GoString) : GoString :=
  if a = [] then (if b = [] then [] else Clean b)
  else Clean (a ++ '/' :: b)

/-- The part of `path` up to and including its last `/`. -/
def upToLastSlash (path : GoString) : GoString :=
  (path.reverse.dropWhile (fun c => decide (c ≠ '/'))).reverse

/-- Go `filepath.Dir(path)`: all but the last element of `path`, cleaned. -/
def Dir (path : GoString) : GoString := Clean (upToLastSlash path)

/-- Go `filepath.Abs(path)` in working directory `wd`. -/
def Abs (wd path : GoString) : GoString :=
  if HasPrefix path ['/'] then Clean path else Join wd path

/-! ## The file system -/

/-- A file-system object: a directory or a regular file with its content.
Symbolic links and permission bits are not tracked. -/
inductive Node where
  | dir
  | file (data : Bytes)
  deriving DecidableEq, Repr

/-- A resolved location: the non-empty elements of an absolute path. -/
abbrev Location := List GoString

/-- The state of the file system: the objects that exist, by location.  The
root directory `[]` always exists and is not listed. -/
abbrev FileSystem := List (Location × Node)

/-- Resolution of a path string.  The commands only pass cleaned absolute
paths to the operating system, for which the location is the list of the
non-empty elements. -/
def locate (path : GoString) : Location :=
  (Split path '/').filter (fun s => decide (s ≠ []))

/-- The object at a location, if any. -/
def FileSystem.stat (fs : FileSystem) (p : Location) : Option Node :=
  if p = [] then some .dir else mapGet fs p

/-- The directories from `pre` down along `rest`, created where missing
(`os.MkdirAll`); `none` when an element on the way is a regular file. -/
def mkdirFrom (pre : Location) : Location → FileSystem → Option FileSystem
  | [], fs => some fs
  | s :: rest, fs =>
    match fs.stat (pre ++ [s]) with
    | some (.file _) => none
    | some .dir => mkdirFrom (pre ++ [s]) rest fs
    | none => mkdirFrom (pre ++ [s]) rest (mapSet fs (pre ++ [s]) .dir)

/-- Go `os.MkdirAll(path, perm)`; `none` is a returned error, and then
nothing was created. -/
def MkdirAll (fs : FileSystem) (path : GoString) : Option FileSystem :=
  mkdirFrom [] (locate path) fs

/-- Creation or truncation of the regular file at `path` followed by writing
`data`: `ioutil.WriteFile(path, data, perm)`, and likewise
`os.OpenFile(path, O_WRONLY|O_CREATE|O_TRUNC, perm)` followed by `io.Copy`.
It fails, changing nothing, when the parent directory does not exist or is
not a directory, or when `path` is a directory. -/
def WriteFile (fs : FileSystem) (path : GoString) (data : Bytes) : Option FileSystem :=
  let p := locate path
  if p = [] then none
  else
    match fs.stat p.dropLast, fs.stat p with
    | some .dir, some .dir => none
    | some .dir, _ => some (mapSet fs p (.file data))
    | _, _ => none

/-- Byte-wise order of strings (`sort.Strings`). -/
def strLt : GoString → GoString → Bool
  | [], [] => false
  | [], _ :: _ => true
  | _ :: _, [] => false
  | a :: as, b :: bs => decide (a.toNat < b.toNat) || (decide (a = b) && strLt as bs)

/-- The order in which `filepath.Walk` reaches locations: a directory before
what it contains, the names inside a directory in `sort.Strings` order. -/
def locLt : Location → Location → Bool
  | [], [] => false
  | [], _ :: _ => true
  | _ :: _, [] => false
  | a :: as, b :: bs => strLt a b || (decide (a = b) && locLt as bs)

/-- Insertion into a list kept in walk order. -/
def walkInsert (x : Location × Node) : List (Location × Node) → List (Location × Node)
  | [] => [x]
  | y :: ys => if locLt y.1 x.1 then y :: walkInsert x ys else x :: y :: ys

/-- The objects at or below `root`, in walk order. -/
def walkOrder (fs : FileSystem) (root : Location) : List (Location × Node) :=
  (fs.filter (fun e => root.isPrefixOf e.1)).foldr walkInsert []

/-! ## fetch.go, lines 84-126: writing the files and scanning for resources -/

/-- The anonymous struct `meta` of `runFetch`. -/
structure ResourceMeta where
  CacheControl : GoString
  ContentType : GoString
  deriving DecidableEq, Repr

/-- What `xml.Unmarshal([]byte(data), &meta)` leaves behind for a zero `meta`:
whether it returned an error, and the fields as they are after the call.  The
decoder assigns a field as soon as the field's element is closed, so fields
may be set although an error is returned. -/
structure XmlResult where
  failed : Bool
  value : ResourceMeta
  deriving DecidableEq, Repr

/-- Lines 97-125: what one retrieved file adds to `resourcesMap`, as the pair
of key and value of the assignment in line 122, if it is executed.
`pathParts[cap(pathParts)-1]` is the last element of the split (see `Split`);
`strings.Split(resourceName, ".")[1]` is an unchecked index.  The error of
`xml.Unmarshal` is dropped (the `return` of line 118 is commented out) and
`meta` is read whatever it was. -/
def resourceEntry (xmlUnmarshal : Bytes → XmlResult) (root artifactType : GoString)
    (expandResources : Bool) (name : GoString) (data : Bytes) :
    Except Failure (Option (GoString × GoString)) :=
  let file := Join root name
  let isResource : Bool :=
    if artifactType = "StaticResource".toList then true
    else if HasSuffix file ".resource-meta.xml".toList then true
    else false
  if isResource ∧ expandResources ∧ name ≠ "package.xml".toList then
    match (Split name '/').getLast? with
    | none => .error .indexOutOfRange
    | some resourceName =>
      match (Split resourceName '.').get? 1, (Split resourceName '.').get? 0 with
      | some resourceExt, some resourceName =>
        if resourceExt = "resource-meta".toList then
          let meta := (xmlUnmarshal data).value
          if meta.ContentType = "application/zip".toList then
            .ok (some (resourceName, Join (Dir file) (resourceName ++ ".resource".toList)))
          else .ok none
        else .ok none
      | _, _ => .error .indexOutOfRange
  else .ok none

/-- Lines 87-126: the body of the loop over the retrieved files, for one
entry.  The state is the file system and `resourcesMap`. -/
def writeEntry (xmlUnmarshal : Bytes → XmlResult) (root artifactType : GoString)
    (expandResources : Bool) (st : FileSystem × List (GoString × GoString))
    (entry : GoString × Bytes) : Except Failure (FileSystem × List (GoString × GoString)) :=
  let file := Join root entry.1
  let dir := Dir file
  match MkdirAll st.1 dir with
  | none => .error .errorAndExitSys
  | some fs1 =>
    match WriteFile fs1 (Join root entry.1) entry.2 with
    | none => .error .errorAndExitSys
    | some fs2 =>
      match resourceEntry xmlUnmarshal root artifactType expandResources entry.1 entry.2 with
      | .error e => .error e
      | .ok none => .ok (fs2, st.2)
      | .ok (some kv) => .ok (fs2, mapSet st.2 kv.1 kv.2)

/-- Lines 87-126: the loop over the retrieved files, in the order `range`
yields them. -/
def writeLoop (xmlUnmarshal : Bytes → XmlResult) (root artifactType : GoString)
    (expandResources : Bool) :
    ForceMetadataFiles → FileSystem × List (GoString × GoString) →
      Except Failure (FileSystem × List (GoString × GoString))
  | [], st => .ok st
  | entry :: rest, st =>
    match writeEntry xmlUnmarshal root artifactType expandResources st entry with
    | .error e => .error e
    | .ok st1 => writeLoop xmlUnmarshal root artifactType expandResources rest st1

/-! ## fetch.go, lines 128-172: expanding the registered archives -/

/-- A member `f` of `r.File` as `runFetch` uses it: `f.Name`,
`f.FileInfo().IsDir()`, and the bytes that `f.Open()` delivers (`none` when
the member cannot be opened). -/
structure ZipFile where
  Name : GoString
  IsDir : Bool
  Open : Option Bytes
  deriving DecidableEq, Repr

/-- Lines 145-169: the body of the loop over `r.File`, for one member.  When
`f.Open()` fails `rc` is nil and `defer rc.Close()` panics.  Errors of
`os.MkdirAll`, `os.OpenFile` and `io.Copy` are printed or dropped and the loop
goes on; a file that could not be opened is a nil `*os.File`, to which nothing
is written. -/
def extractFile (dest : GoString) (fs : FileSystem) (f : ZipFile) :
    Except Failure FileSystem :=
  match f.Open with
  | none => .error .nilDereference
  | some rc =>
    let path := Join dest f.Name
    if ¬ HasPrefix f.Name "__".toList then
      if f.IsDir then
        match MkdirAll fs path with
        | some fs1 => .ok fs1
        | none => .ok fs
      else
        match WriteFile fs path rc with
        | some fs1 => .ok fs1
        | none => .ok fs
    else .ok fs

/-- Lines 144-170: the loop over `r.File`. -/
def extractLoop (dest : GoString) : List ZipFile → FileSystem → Except Failure FileSystem
  | [], fs => .ok fs
  | f :: rest, fs =>
    match extractFile dest fs f with
    | .error e => .error e
    | .ok fs1 => extractLoop dest rest fs1

/-- Go `zip.OpenReader(name)`: the file is read and decoded; `none` is a
returned error.  `zipDecode` is the decoder of the archive format. -/
def OpenReader (zipDecode : Bytes → Option (List ZipFile)) (fs : FileSystem)
    (name : GoString) : Option (List ZipFile) :=
  match fs.stat (locate name) with
  | some (.file data) => zipDecode data
  | _ => none

/-- Lines 130-171: the body of the loop over `resourcesMap`, for one pair. -/
def expandResource (zipDecode : Bytes → Option (List ZipFile)) (fs : FileSystem)
    (key value : GoString) : Except Failure FileSystem :=
  let resourcefile := value
  let dest := Join (Dir value) key
  match MkdirAll fs dest with
  | none => .error .errorAndExitSys
  | some fs1 =>
    match OpenReader zipDecode fs1 resourcefile with
    | none => .error .logFatal
    | some files => extractLoop dest files fs1

/-- Lines 130-171: the loop over `resourcesMap`. -/
def expandLoop (zipDecode : Bytes → Option (List ZipFile)) :
    List (GoString × GoString) → FileSystem → Except Failure FileSystem
  | [], fs => .ok fs
  | kv :: rest, fs =>
    match expandResource zipDecode fs kv.1 kv.2 with
    | .error e => .error e
    | .ok fs1 => expandLoop zipDecode rest fs1

/-! ## fetch.go: `runFetch` -/

/-- What `runFetch` takes from its surroundings: the working directory
(`os.Getwd`), the two retrieval calls of the remote Metadata API (an error
carries its message), the XML decoder and the zip decoder. -/
structure FetchEnv where
  wd : GoString
  RetrievePackage : GoString → Except GoString ForceMetadataFiles
  Retrieve : ForceMetadataQuery → Except GoString ForceMetadataFiles
  xmlUnmarshal : Bytes → XmlResult
  zipDecode : Bytes → Option (List ZipFile)

/-- Lines 52-82: the remote call for a request. -/
def retrieve (env : FetchEnv) : FetchRequest → Except Failure (ForceMetadataFiles × Bool)
  | .package name expandResources =>
    match env.RetrievePackage name with
    | .error msg => .error (.errorAndExit msg)
    | .ok files => .ok (files, expandResources)
  | .query query expandResources =>
    match env.Retrieve query with
    | .error msg => .error (.errorAndExit msg)
    | .ok files => .ok (files, expandResources)

/-- The command `fetch`: the file system after `runFetch(cmd, args)`, or the
failure that stopped it.  What is printed is left out. -/
def runFetch (env : FetchEnv) (args : List GoString) (fs : FileSystem) :
    Except Failure FileSystem :=
  let root := Join env.wd "metadata".toList
  match runFetch_request args with
  | .error e => .error e
  | .ok request =>
    match retrieve env request with
    | .error e => .error e
    | .ok (files, expandResources) =>
      match writeLoop env.xmlUnmarshal root (args.headD []) expandResources files (fs, []) with
      | .error e => .error e
      | .ok (fs1, resourcesMap) =>
        if expandResources ∧ 0 < resourcesMap.length then
          expandLoop env.zipDecode resourcesMap fs1
        else .ok fs1

/-! ## import.go -/

/-- Modelled from the spec: the element type of `successes`, whose declaration
is not part of the two source files.  The spec lists the fields; `runImport`
reads `FullName`, `Changed`, `Deleted`, `Created` and `Id`. -/
structure ComponentSuccess where
  FullName : GoString
  Created : Bool
  Changed : Bool
  Deleted : Bool
  Id : GoString
  deriving DecidableEq, Repr

/-- Modelled from the spec: the element type of `problems`; `runImport` reads
`FullName` and `Problem`. -/
structure ComponentFailure where
  FullName : GoString
  Problem : GoString
  deriving DecidableEq, Repr

/-- Modelled from the spec: `ForceDeployOptions`, seven boolean toggles. -/
structure ForceDeployOptions where
  AllowMissingFiles : Bool
  AutoUpdatePackage : Bool
  CheckOnly : Bool
  IgnoreWarnings : Bool
  PurgeOnDelete : Bool
  RollbackOnError : Bool
  RunAllTests : Bool
  deriving DecidableEq, Repr

/-- The values of the seven flags of `cmdImport.Flag`. -/
structure ImportFlags where
  rollBackOnErrorFlag : Bool
  runAllTestsFlag : Bool
  checkOnlyFlag : Bool
  purgeOnDeleteFlag : Bool
  allowMissingFilesFlag : Bool
  autoUpdatePackageFlag : Bool
  ignoreWarningsFlag : Bool

/-- Lines 51-55: `root`. -/
def importRoot (wd : GoString) (args : List GoString) : GoString :=
  match args with
  | [] => Join wd "metadata".toList
  | a :: _ => Abs wd a

/-- Line 56: `verbose`. -/
def importVerbose (args : List GoString) : Bool :=
  decide (args.length = 2) && decide (args.get? 1 = some "-v".toList)

/-- Line 60: `os.IsNotExist(err)` for `os.Stat(path)`.  The error is "not
exist" when nothing is at the location and no element on the way to it is a
regular file (that would be "not a directory"). -/
def statIsNotExist (fs : FileSystem) (path : GoString) : Bool :=
  let p := locate path
  (fs.stat p).isNone &&
    !(p.inits.any (fun q => match fs.stat q with
      | some (.file _) => true
      | _ => false))

/-- Lines 63-74: the function passed to `filepath.Walk`, for an object that
exists; `name` is `f.Name()`. -/
def walkFn (root : GoString) (files : ForceMetadataFiles) (path name : GoString)
    (f : Node) : ForceMetadataFiles :=
  match f with
  | .file data =>
    if name ≠ ".DS_Store".toList then
      mapSet files (Replace path (root ++ "/".toList) []) data
    else files
  | .dir => files

/-- The path string `filepath.Walk` passes for the object at `loc`: `root`
itself, or `root` joined with the names leading down to the object. -/
def walkPath (root : GoString) (loc : Location) : GoString :=
  let rel := loc.drop (locate root).length
  if rel = [] then root else Join root (joinSegs rel)

/-- The loop of `filepath.Walk` over the objects it reaches. -/
def walkLoop (root : GoString) :
    List (Location × Node) → ForceMetadataFiles → ForceMetadataFiles
  | [], files => files
  | e :: rest, files =>
    walkLoop root rest (walkFn root files (walkPath root e.1) (e.1.getLastD root) e.2)

/-- Lines 59-77: the FileSet that `runImport` reads from `root`.  When `root`
itself does not exist, `filepath.Walk` calls the function with a nil
`os.FileInfo`, and `f.Mode()` panics. -/
def runImport_files (root : GoString) (fs : FileSystem) : Except Failure ForceMetadataFiles :=
  if statIsNotExist fs (Join root "package.xml".toList) then
    .error (.errorAndExit "Must specify a directory that contains metadata files".toList)
  else
    match fs.stat (locate root) with
    | none => .error .nilDereference
    | some _ => .ok (walkLoop root (walkOrder fs (locate root)) [])

/-- Lines 78-85: the deployment options, copied from the flags. -/
def deploymentOptions (flags : ImportFlags) : ForceDeployOptions :=
  { AllowMissingFiles := flags.allowMissingFilesFlag
    AutoUpdatePackage := flags.autoUpdatePackageFlag
    CheckOnly := flags.checkOnlyFlag
    IgnoreWarnings := flags.ignoreWarningsFlag
    PurgeOnDelete := flags.purgeOnDeleteFlag
    RollbackOnError := flags.rollBackOnErrorFlag
    RunAllTests := flags.runAllTestsFlag }

/-- The text of `%d` for a length. -/
def fmtInt (n : Nat) : GoString := (Nat.repr n).toList

/-- Lines 91-100: the report of the problems, one element per call of
`fmt.Printf` or `fmt.Println`. -/
def reportProblems (verbose : Bool) (problems : List ComponentFailure) : List GoString :=
  ("\nFailures - ".toList ++ fmtInt problems.length ++ "\n".toList) ::
    (if verbose then
      problems.map (fun problem =>
        if problem.FullName = [] then problem.Problem ++ "\n".toList
        else problem.FullName ++ ": ".toList ++ problem.Problem ++ "\n".toList)
    else [])

/-- Lines 106-113: `verb`. -/
def successVerb (success : ComponentSuccess) : GoString :=
  if success.Changed then "changed".toList
  else if success.Deleted then "deleted".toList
  else if success.Created then "created".toList
  else "unchanged".toList

/-- Line 114: the text printed for one success. -/
def successEntry (success : ComponentSuccess) : GoString :=
  success.FullName ++ "\n\tstatus: ".toList ++ successVerb success ++
    "\n\tid=".toList ++ success.Id ++ "\n".toList

/-- Lines 104-116: the loop over `successes`; the result is what it prints,
one element per call of `fmt.Printf`. -/
def successLoop : List ComponentSuccess → List GoString
  | [] => []
  | success :: rest =>
    if success.FullName ≠ "package.xml".toList then successEntry success :: successLoop rest
    else successLoop rest

/-- Lines 102-117: the report of the successes, one element per call of
`fmt.Printf`. -/
def reportSuccesses (verbose : Bool) (successes : List ComponentSuccess) : List GoString :=
  ("\nSuccesses - ".toList ++ fmtInt successes.length ++ "\n".toList) ::
    (if verbose then successLoop successes else [])

/-- What `runImport` takes from its surroundings: the working directory, the
flag values and the deploy call of the remote Metadata API. -/
structure ImportEnv where
  wd : GoString
  flags : ImportFlags
  Deploy : ForceMetadataFiles → ForceDeployOptions →
    Except GoString (List ComponentSuccess × List ComponentFailure)

/-- The command `import`: what `runImport(cmd, args)` prints, or the failure
that stopped it. -/
def runImport (env : ImportEnv) (args : List GoString) (fs : FileSystem) :
    Except Failure (List GoString) :=
  let root := importRoot env.wd args
  let verbose := importVerbose args
  match runImport_files root fs with
  | .error e => .error e
  | .ok files =>
    match env.Deploy files (deploymentOptions env.flags) with
    | .error msg => .error (.errorAndExit msg)
    | .ok (successes, problems) =>
      .ok (reportProblems verbose problems ++ reportSuccesses verbose successes ++
        ["Imported from ".toList ++ root ++ "\n".toList])

/-! ## Concrete inputs used below -/

/-- The success a deploy reports for the manifest itself. -/
def manifestSuccess : ComponentSuccess :=
  { FullName := "package.xml".toList, Created := false, Changed := false, Deleted := false,
    Id := "0".toList }

/-- The bytes of a string. -/
def bytesOf (s : GoString) : Bytes := s.map Char.toNat

/-- A resource-meta document cut off before the closing tag of its root
element. -/
def truncatedMeta : Bytes :=
  bytesOf "<StaticResource><contentType>application/zip</contentType>".toList

/-- The outcome of `xml.Unmarshal` on `truncatedMeta`: the element
`contentType` is complete and has been assigned when the end of input is met
inside the root element, so the call returns a syntax error (unexpected EOF)
with `ContentType` set.  Other documents are not used and are given a failure
with the zero value. -/
def unmarshalTruncated (data : Bytes) : XmlResult :=
  if data = truncatedMeta then
    { failed := true, value := { CacheControl := [], ContentType := "application/zip".toList } }
  else { failed := true, value := { CacheControl := [], ContentType := [] } }

/-- A directory `/a` holding `package.xml`, the file `x/a/y` and the file
`xy`. -/
def importTree : FileSystem :=
  [(["a".toList], .dir),
   (["a".toList, "package.xml".toList], .file []),
   (["a".toList, "x".toList], .dir),
   (["a".toList, "x".toList, "a".toList], .dir),
   (["a".toList, "x".toList, "a".toList, "y".toList], .file [1]),
   (["a".toList, "xy".toList], .file [2])]

/-- A retrieved FileSet with the two keys `package.xml` and `x/metadata/y`. -/
def fetchedFiles : ForceMetadataFiles :=
  [("package.xml".toList, [1]), ("x/metadata/y".toList, [7])]

/-- A run of `fetch` in the working directory `/` whose retrieval returns
`fetchedFiles`. -/
def fetchEnv : FetchEnv :=
  { wd := "/".toList
    RetrievePackage := fun _ => .ok fetchedFiles
    Retrieve := fun _ => .ok fetchedFiles
    xmlUnmarshal := fun _ => { failed := false, value := { CacheControl := [], ContentType := [] } }
    zipDecode := fun _ => none }

/-- The tree after a fetch of `MyResource` that wrote the meta file and the
archive under `/metadata/staticresources`. -/
def resourceTree : FileSystem :=
  [(["metadata".toList], .dir),
   (["metadata".toList, "staticresources".toList], .dir),
   (["metadata".toList, "staticresources".toList, "MyResource.resource-meta.xml".toList],
     .file []),
   (["metadata".toList, "staticresources".toList, "MyResource.resource".toList],
     .file [80, 75])]

/-- An archive with the single member `css/site.css`, a regular file, and no
member for the directory `css/`. -/
def flatArchive (_ : Bytes) : Option (List ZipFile) :=
  some [{ Name := "css/site.css".toList, IsDir := false, Open := some [1, 2] }]

/-! ## Theorems -/

theorem queryLoop_eq (artifactType : GoString) (rest : List GoString)
    (query : ForceMetadataQuery) (e : Bool) :
    queryLoop artifactType rest (query, e) =
      (query ++ (givenNames rest).map (fun n => ⟨artifactType, n⟩),
        e || rest.any isUnpackFlag) := by
  induction rest generalizing query e with
  | nil => simp [queryLoop, givenNames]
  | cons a rest ih =>
    by_cases h : a = "--unpack".toList ∨ a = "-u".toList
    · have hf : isUnpackFlag a = true := decide_eq_true h
      rw [queryLoop, if_pos h, ih]
      simp [givenNames, hf]
    · have hf : isUnpackFlag a = false := decide_eq_false h
      rw [queryLoop, if_neg h, ih]
      simp [givenNames, hf]

/-- C1, at the argument list `StaticResource --unpack`: no name is given, and
the query `runFetch` builds is empty, not the single wildcard element
`(StaticResource, "*")`. -/
theorem runFetch_request_flag_only :
    givenNames ["--unpack".toList] = [] ∧
    runFetch_request ["StaticResource".toList, "--unpack".toList] = .ok (.query [] true) ∧
    runFetch_request ["StaticResource".toList, "--unpack".toList] ≠
      .ok (.query [⟨"StaticResource".toList, "*".toList⟩] true) := by
  decide

/-- C2: for a type other than `package` followed by tokens of which at least
one is a name, the query `runFetch` builds is the sequence of the elements
`(type, name)` for the given names in command-line order, the unpack flags
removed, and `expandResources` is set exactly when an unpack flag occurs. -/
theorem runFetch_request_names (artifactType : GoString) (rest : List GoString)
    (htype : artifactType ≠ "package".toList)
    (hname : ∃ n ∈ rest, isUnpackFlag n = false) :
    runFetch_request (artifactType :: rest) =
      .ok (.query ((givenNames rest).map (fun n => ⟨artifactType, n⟩))
        (rest.any isUnpackFlag)) := by
  obtain ⟨n, hn, -⟩ := hname
  have hlen : 2 ≤ (artifactType :: rest).length := by
    cases rest with
    | nil => simp at hn
    | cons a t => simp
  simp only [runFetch_request, if_neg htype, if_pos hlen, queryLoop_eq]
  simp

/-- C2 at `CustomObject Book__c Author__c`, and at the same names with a flag
in between. -/
theorem runFetch_request_names_witness :
    runFetch_request ["CustomObject".toList, "Book__c".toList, "Author__c".toList] =
      .ok (.query [⟨"CustomObject".toList, "Book__c".toList⟩,
        ⟨"CustomObject".toList, "Author__c".toList⟩] false) ∧
    runFetch_request ["CustomObject".toList, "Book__c".toList, "-u".toList,
        "Author__c".toList] =
      .ok (.query [⟨"CustomObject".toList, "Book__c".toList⟩,
        ⟨"CustomObject".toList, "Author__c".toList⟩] true) :=
  ⟨runFetch_request_names "CustomObject".toList ["Book__c".toList, "Author__c".toList]
      (by decide) ⟨"Book__c".toList, by decide, by decide⟩,
    runFetch_request_names "CustomObject".toList
      ["Book__c".toList, "-u".toList, "Author__c".toList]
      (by decide) ⟨"Book__c".toList, by decide, by decide⟩⟩

/-- C9, at the argument list `package`: `runFetch` does not stop with the
usage error but panics on the unchecked index `args[1]`. -/
theorem runFetch_request_package_alone :
    runFetch_request ["package".toList] = .error .indexOutOfRange ∧
    ∀ msg, runFetch_request ["package".toList] ≠ .error (.errorAndExit msg) := by
  refine ⟨by decide, fun msg h => ?_⟩
  have h1 : runFetch_request ["package".toList] = .error .indexOutOfRange := by decide
  rw [h1] at h
  cases h

/-- C10, at type `StaticResource`, unpack flag set, and the retrieved file
`staticresources/README`: the last path segment has no `.`, its split has one
element, and the index `[1]` is out of range. -/
theorem resourceEntry_no_dot (xmlUnmarshal : Bytes → XmlResult) (data : Bytes) :
    Split "README".toList '.' = ["README".toList] ∧
    resourceEntry xmlUnmarshal "/metadata".toList "StaticResource".toList true
      "staticresources/README".toList data = .error .indexOutOfRange := by
  constructor
  · decide
  · rfl

theorem successLoop_eq (successes : List ComponentSuccess) :
    successLoop successes =
      (successes.filter (fun s => decide (s.FullName ≠ "package.xml".toList))).map
        successEntry := by
  induction successes with
  | nil => rfl
  | cons s rest ih =>
    rw [successLoop, ih]
    generalize "package.xml".toList = pkg
    by_cases h : s.FullName = pkg <;> simp [h]

/-- C8 as stated fails for a result whose only success is `package.xml`: the
printed count is 1 and no success entry is listed. -/
theorem reportSuccesses_manifest_only :
    reportSuccesses true [manifestSuccess] = ["\nSuccesses - 1\n".toList] ∧
    (successLoop [manifestSuccess]).length ≠ [manifestSuccess].length := by
  decide

/-- C8, amended: in verbose mode the report of the successes is the count line
with the number of all successes, followed by one entry (fullName, status, id)
for each success whose fullName is not `package.xml`, in result order; the
entries listed and the `package.xml` successes together number the printed
count; and the status is chosen by priority changed, deleted, created,
unchanged. -/
theorem reportSuccesses_verbose (successes : List ComponentSuccess) :
    reportSuccesses true successes =
      ("\nSuccesses - ".toList ++ fmtInt successes.length ++ "\n".toList) ::
        (successes.filter (fun s => decide (s.FullName ≠ "package.xml".toList))).map
          (fun s => s.FullName ++ "\n\tstatus: ".toList ++ successVerb s ++
            "\n\tid=".toList ++ s.Id ++ "\n".toList) ∧
    (successLoop successes).length +
        successes.countP (fun s => decide (s.FullName = "package.xml".toList)) =
      successes.length ∧
    ∀ s : ComponentSuccess,
      successVerb s =
        (if s.Changed = true then "changed".toList
         else if s.Deleted = true then "deleted".toList
         else if s.Created = true then "created".toList
         else "unchanged".toList) := by
  refine ⟨?_, ?_, fun s => rfl⟩
  · simp only [reportSuccesses, if_true, successLoop_eq]
    rfl
  · rw [successLoop_eq, List.length_map]
    generalize "package.xml".toList = pkg
    induction successes with
    | nil => rfl
    | cons s rest ih =>
      by_cases h : s.FullName = pkg <;> simp [h] at ih ⊢ <;> omega

theorem extractFile_skipped (dest : GoString) (fs : FileSystem) (f : ZipFile) (rc : Bytes)
    (hname : HasPrefix f.Name "__".toList = true) (hopen : f.Open = some rc) :
    extractFile dest fs f = .ok fs := by
  rw [extractFile, hopen]
  generalize "__".toList = pre at hname
  simp [hname]

/-- C7: a member of the archive whose name starts with `__` leaves the file
system as it is (the only other outcome is the panic when it cannot be opened,
before anything is written), and the extraction of an archive gives the same
result as the extraction of the archive without its `__` members that can be
opened: nothing that extraction creates or writes comes from such a member. -/
theorem extract_skips_underscore :
    (∀ (dest : GoString) (fs : FileSystem) (f : ZipFile),
      HasPrefix f.Name "__".toList = true →
        extractFile dest fs f = .ok fs ∨ extractFile dest fs f = .error .nilDereference) ∧
    (∀ (dest : GoString) (files : List ZipFile) (fs : FileSystem),
      extractLoop dest files fs =
        extractLoop dest
          (files.filter (fun f => !(HasPrefix f.Name "__".toList && f.Open.isSome))) fs) := by
  constructor
  · intro dest fs f hname
    cases hopen : f.Open with
    | none => right; simp [extractFile, hopen]
    | some rc => left; exact extractFile_skipped dest fs f rc hname hopen
  · intro dest files
    induction files with
    | nil => intro fs; rfl
    | cons f rest ih =>
      intro fs
      by_cases hk : (HasPrefix f.Name "__".toList && f.Open.isSome) = true
      · have hname : HasPrefix f.Name "__".toList = true := (Bool.and_eq_true _ _ ▸ hk).1
        obtain ⟨rc, hopen⟩ : ∃ rc, f.Open = some rc :=
          Option.isSome_iff_exists.mp (Bool.and_eq_true _ _ ▸ hk).2
        rw [List.filter_cons, if_neg (by rw [hk]; decide), extractLoop,
          extractFile_skipped dest fs f rc hname hopen]
        exact ih fs
      · rw [List.filter_cons, if_pos (by rw [Bool.not_eq_true] at hk; rw [hk]; rfl),
          extractLoop, extractLoop]
        cases extractFile dest fs f with
        | error e => rfl
        | ok fs1 => exact ih fs1

/-- C7 at an archive with a `__MACOSX` member between two ordinary ones. -/
theorem extract_skips_underscore_witness :
    HasPrefix "__MACOSX/a.txt".toList "__".toList = true ∧
    (extractFile "/metadata/r".toList [(["metadata".toList], .dir)]
        ⟨"__MACOSX/a.txt".toList, false, some [1]⟩ = .ok [(["metadata".toList], .dir)] ∨
      extractFile "/metadata/r".toList [(["metadata".toList], .dir)]
        ⟨"__MACOSX/a.txt".toList, false, some [1]⟩ = .error .nilDereference) :=
  ⟨by decide, extract_skips_underscore.1 "/metadata/r".toList [(["metadata".toList], .dir)]
    ⟨"__MACOSX/a.txt".toList, false, some [1]⟩ (by decide)⟩

/-- C5, at type `StaticResource`, unpack flag set, and the retrieved file
`staticresources/MyResource.resource-meta.xml` holding the truncated document:
the decoder returns an error, the error is dropped (lines 117-119), and the
file is registered from the half-decoded `meta`, where XML that cannot be
parsed should register nothing. -/
theorem resourceEntry_unparsable_registers :
    (unmarshalTruncated truncatedMeta).failed = true ∧
    resourceEntry unmarshalTruncated "/metadata".toList "StaticResource".toList true
        "staticresources/MyResource.resource-meta.xml".toList truncatedMeta =
      .ok (some ("MyResource".toList,
        "/metadata/staticresources/MyResource.resource".toList)) := by
  decide

/-- What lines 97-125 compute: with the unpack flag set, a retrieved file
registers the pair (base name, sibling `<baseName>.resource` in the directory
of the meta file) exactly when its name is not `package.xml`, it is a
candidate (the type is `StaticResource` or its path ends with
`.resource-meta.xml`), its file name splits on `.` into the base name followed
by `resource-meta`, and the `ContentType` found in `meta` after the decoder
ran is `application/zip`.  With the flag unset nothing is registered. -/
theorem resourceEntry_registers (xmlUnmarshal : Bytes → XmlResult)
    (root artifactType name : GoString) (data : Bytes) (key value : GoString) :
    (resourceEntry xmlUnmarshal root artifactType true name data = .ok (some (key, value)) ↔
      name ≠ "package.xml".toList ∧
      (artifactType = "StaticResource".toList ∨
        HasSuffix (Join root name) ".resource-meta.xml".toList = true) ∧
      (∃ fileName, (Split name '/').getLast? = some fileName ∧
        (Split fileName '.').get? 0 = some key ∧
        (Split fileName '.').get? 1 = some "resource-meta".toList) ∧
      (xmlUnmarshal data).value.ContentType = "application/zip".toList ∧
      value = Join (Dir (Join root name)) (key ++ ".resource".toList)) ∧
    resourceEntry xmlUnmarshal root artifactType false name data = .ok none := by
  constructor
  · unfold resourceEntry
    simp only []
    generalize "package.xml".toList = pkg
    generalize "StaticResource".toList = sr
    generalize ".resource-meta.xml".toList = suf
    generalize "resource-meta".toList = ext
    generalize "application/zip".toList = zip
    generalize ".resource".toList = res
    generalize (xmlUnmarshal data).value.ContentType = ct
    generalize Join root name = file
    generalize (Split name '/').getLast? = last
    rcases last with _ | fileName
    · simp
      intro h; split at h <;> simp at h
    · simp only [Option.some.injEq, exists_eq_left']
      generalize (Split fileName '.').get? 1 = o1
      generalize (Split fileName '.').get? 0 = o0
      rcases o1 with _ | e <;> rcases o0 with _ | k
      · simp
        intro h; split at h <;> simp at h
      · simp
        intro h; split at h <;> simp at h
      · simp
        intro h; split at h <;> simp at h
      · by_cases h1 : artifactType = sr <;> by_cases h2 : HasSuffix file suf = true <;>
            by_cases h3 : name = pkg <;> by_cases h4 : e = ext <;> by_cases h5 : ct = zip <;>
            simp [h1, h2, h3, h4, h5] <;> (rintro rfl; exact eq_comm)
  · simp [resourceEntry]

/-- C3, at root `/a` with the regular files `/a/x/a/y` and `/a/xy`: the file at
root + "/" + `x/a/y` is not recorded under `x/a/y`; every occurrence of
`/a/` is removed from its path, so it is recorded under `xy`, the key of
the other file, which then replaces it. -/
theorem runImport_files_inner_root :
    importTree.stat (locate ("/a".toList ++ "/".toList ++ "x/a/y".toList)) = some (.file [1]) ∧
    importTree.stat (locate ("/a".toList ++ "/".toList ++ "xy".toList)) = some (.file [2]) ∧
    Replace "/a/x/a/y".toList ("/a".toList ++ "/".toList) [] = "xy".toList ∧
    runImport_files "/a".toList importTree =
      .ok [("package.xml".toList, []), ("xy".toList, [2])] := by
  decide

/-- C4, at the FileSet with keys `package.xml` and `x/metadata/y` fetched in the
working directory `/` on an empty file system: `runFetch` writes the two
files under `/metadata`, and the import walk over `/metadata` reads the
second one back under the key `xy`. -/
theorem fetch_import_inner_root :
    ∃ fs, runFetch fetchEnv ["CustomObject".toList] [] = .ok fs ∧
      fs.stat (locate "/metadata/x/metadata/y".toList) = some (.file [7]) ∧
      runImport_files (importRoot "/".toList []) fs =
        .ok [("package.xml".toList, [1]), ("xy".toList, [7])] :=
  ⟨_, rfl, by decide, by decide⟩

/-- C6, at an archive whose only member is the regular file `css/site.css`:
the destination `/metadata/staticresources/MyResource` is created, the member
is not, because nothing creates the directory `css` first. -/
theorem expandResource_missing_parent :
    ∃ fs, expandResource flatArchive resourceTree "MyResource".toList
        "/metadata/staticresources/MyResource.resource".toList = .ok fs ∧
      fs.stat (locate "/metadata/staticresources/MyResource".toList) = some .dir ∧
      fs.stat (locate "/metadata/staticresources/MyResource/css/site.css".toList) = none :=
  ⟨_, rfl, by decide, by decide⟩

end Force
